import Mathlib

/-!
Verification of the rs-oui library (src/src/lib.rs): a MAC/EUI-48 OUI vendor
lookup engine.  The Rust code is shallowly embedded below: the BTreeMap index
becomes a sorted association list over 48-bit integer intervals, the
Wireshark-manuf line parser is reproduced character by character, and the
bincode export/import pair is modelled from the spec as a deterministic
self-delimiting byte encoding.
-/

namespace RsOui

/-- Embedding of `OuiEntry` (lib.rs lines 47-55): short name, optional long
name, optional comment. -/
structure OuiEntry where
  name_short : String
  name_long : Option String
  comment : Option String
deriving DecidableEq, Repr

/-- Embedding of `OuiMap = BTreeMap<(u64, u64), OuiEntry>`: an association
list kept sorted by key in the BTreeMap's lexicographic `(u64, u64)` order. -/
abbrev OuiMap := List ((Nat × Nat) × OuiEntry)

/-- Lexicographic strict order on `(u64, u64)` keys, as `Ord` on Rust tuples. -/
def keyLtb (a b : Nat × Nat) : Bool :=
  decide (a.1 < b.1) || (decide (a.1 = b.1) && decide (a.2 < b.2))

/-- Propositional form of the key order. -/
def keyLt (a b : Nat × Nat) : Prop :=
  a.1 < b.1 ∨ (a.1 = b.1 ∧ a.2 < b.2)

instance (a b : Nat × Nat) : Decidable (keyLt a b) := by
  unfold keyLt; infer_instance

/-- An `OuiMap` is sorted when consecutive keys strictly increase: the
iteration-order invariant of the Rust `BTreeMap`. -/
def sortedMap (m : OuiMap) : Prop :=
  m.Pairwise (fun a b => keyLt a.1 b.1)

instance (m : OuiMap) : Decidable (sortedMap m) := by
  unfold sortedMap; infer_instance

/-- Embedding of `BTreeMap::insert`: place the new key in order, overwriting
an equal key. -/
def ouiInsert (k : Nat × Nat) (v : OuiEntry) : OuiMap → OuiMap
  | [] => [(k, v)]
  | (k', v') :: rest =>
    if keyLtb k k' then (k, v) :: (k', v') :: rest
    else if k = k' then (k, v) :: rest
    else (k', v') :: ouiInsert k v rest

/-- Containment test `query >= lo && query <= hi` from lib.rs line 133. -/
def containsKey (q : Nat) (k : Nat × Nat) : Bool :=
  decide (k.1 ≤ q) && decide (q ≤ k.2)

/-- Embedding of `OuiDatabase::query` (lib.rs lines 124-149): scan the map in
key order collecting the intervals that contain the query; more than two
matches is an error; otherwise return the last match (via `Vec::pop`), or
`none` when there was no match. -/
def query (m : OuiMap) (q : Nat) : Except String (Option OuiEntry) :=
  if (m.filter (fun e => containsKey q e.1)).length > 2 then
    .error "more than two oui matches - possible database error?"
  else
    .ok (((m.filter (fun e => containsKey q e.1)).getLast?).map (fun e => e.2))

/-- Embedding of `ReadBytesExt::read_u64::<NetworkEndian>`: big-endian read of
the first eight bytes of a slice; fails when fewer than eight bytes remain. -/
def read_u64_be (bytes : List Nat) : Option Nat :=
  match bytes with
  | b0 :: b1 :: b2 :: b3 :: b4 :: b5 :: b6 :: b7 :: _ =>
    some (((((((b0 * 256 + b1) * 256 + b2) * 256 + b3) * 256 + b4) * 256 + b5)
      * 256 + b6) * 256 + b7)
  | _ => none

/-- Embedding of `mac_to_u64` (lib.rs lines 153-173): pad the six address
bytes with two zero bytes and read the result as a big-endian u64.  A
`MacAddress` always carries exactly six bytes, given here as six arguments. -/
def mac_to_u64 (b0 b1 b2 b3 b4 b5 : Nat) : Except String Nat :=
  match read_u64_be [0, 0, b0, b1, b2, b3, b4, b5] with
  | some n => .ok n
  | none => .error "could not read_u64 from padded MAC byte array"

/-- Embedding of `OuiDatabase::query_by_mac` (lib.rs lines 97-104). -/
def query_by_mac (m : OuiMap) (b0 b1 b2 b3 b4 b5 : Nat) :
    Except String (Option OuiEntry) :=
  match mac_to_u64 b0 b1 b2 b3 b4 b5 with
  | .error e => .error e
  | .ok n => query m n

/-- Embedding of `Regex::new("[\t]+").replace_all(entry, "|")`: each maximal
run of horizontal tabs becomes a single pipe character.  The boolean records
whether the previous character was part of a tab run. -/
def collapseTabsAux : Bool → List Char → List Char
  | _, [] => []
  | prevTab, c :: rest =>
    if c = '\t' then
      if prevTab then collapseTabsAux true rest
      else '|' :: collapseTabsAux true rest
    else c :: collapseTabsAux false rest

/-- Tab-run collapsing applied to a whole line (lib.rs line 186). -/
def collapseTabs (l : List Char) : List Char :=
  collapseTabsAux false l

/-- Embedding of `str::split(sep)`: always yields at least one field, and an
empty trailing field after a trailing separator. -/
def splitOnChar (sep : Char) : List Char → List (List Char)
  | [] => [[]]
  | c :: rest =>
    if c = sep then [] :: splitOnChar sep rest
    else
      match splitOnChar sep rest with
      | [] => [[c]]
      | f :: fs => (c :: f) :: fs

/-- Whitespace as recognised by `str::trim` (restricted to the ASCII
whitespace that can appear in manuf lines). -/
def isWsChar (c : Char) : Bool :=
  c = ' ' || c = '\t' || c = '\n' || c = '\r'

/-- Embedding of `str::trim`: drop whitespace from both ends. -/
def rustTrim (l : List Char) : List Char :=
  ((l.dropWhile isWsChar).reverse.dropWhile isWsChar).reverse

/-- Field clean-up from lib.rs lines 190-194: delete every `#` character,
then trim surrounding whitespace. -/
def cleanField (l : List Char) : List Char :=
  rustTrim (l.filter (fun c => c ≠ '#'))

/-- Value of one digit character under a radix, as `char::to_digit`. -/
def digitValue (radix : Nat) (c : Char) : Option Nat :=
  let v :=
    if '0' ≤ c ∧ c ≤ '9' then some (c.toNat - '0'.toNat)
    else if 'a' ≤ c ∧ c ≤ 'z' then some (c.toNat - 'a'.toNat + 10)
    else if 'A' ≤ c ∧ c ≤ 'Z' then some (c.toNat - 'A'.toNat + 10)
    else none
  match v with
  | some d => if d < radix then some d else none
  | none => none

/-- Embedding of `uN::from_str_radix`: an optional sign followed by at least
one digit; the value must fit the target width (`bound` is the type's maximal
value); a minus sign on an unsigned type only admits the value zero. -/
def parseUnsigned (radix bound : Nat) (s : List Char) : Option Nat :=
  match s with
  | [] => none
  | _ =>
    let signed : Bool × List Char :=
      match s with
      | '+' :: r => (false, r)
      | '-' :: r => (true, r)
      | r => (false, r)
    let neg := signed.1
    let digits := signed.2
    if digits = [] then none
    else
      match digits.mapM (digitValue radix) with
      | none => none
      | some ds =>
        let v := ds.foldl (fun acc d => acc * radix + d) 0
        if neg then (if v = 0 then some 0 else none)
        else if v ≤ bound then some v else none

/-- Embedding of the block-specifier parse (lib.rs lines 204-232): split the
first field on `/`, default the mask to 24 or parse and range-check it, then
uppercase the OUI part, strip `:`/`-`/`.` separators and parse it as a u64
hexadecimal integer.  Returns the prefix value and the mask. -/
def parse_prefix_mask (f0 : List Char) : Except String (Nat × Nat) :=
  let oui_and_mask := splitOnChar '/' f0
  let maskE : Except String Nat :=
    match oui_and_mask with
    | [_] => .ok 24
    | [_, ms] =>
      match parseUnsigned 10 255 ms with
      | none => .error "could not parse mask"
      | some m => if 8 ≤ m ∧ m ≤ 48 then .ok m else .error "incorrect mask value"
    | _ => .error "invalid number of mask separators"
  match maskE with
  | .error e => .error e
  | .ok mask =>
    let oui := ((oui_and_mask.headD []).map Char.toUpper).filter
      (fun c => c ≠ ':' && c ≠ '-' && c ≠ '.')
    match parseUnsigned 16 (2 ^ 64 - 1) oui with
    | none => .error "could not parse stripped OUI"
    | some p => .ok (p, mask)

/-- Field splitting for one data line (lib.rs lines 186-195): collapse tab
runs, split on the pipe, and clean each field. -/
def splitFields (entry : String) : List (List Char) :=
  (splitOnChar '|' (collapseTabs entry.data)).map cleanField

/-- Embedding of the body of the ingest loop for a data line (lib.rs lines
186-277): check the field count, parse the block specifier, build the
interval with the default-mask shift and the mask-derived width, and assemble
the entry from the remaining fields. -/
def processData (entry : String) : Except String ((Nat × Nat) × OuiEntry) :=
  let fields_cleaned := splitFields entry
  if 2 ≤ fields_cleaned.length ∧ fields_cleaned.length ≤ 4 then
    match parse_prefix_mask (fields_cleaned.headD []) with
    | .error e => .error e
    | .ok (p, mask) =>
      let oui_start : Nat := if mask = 24 then (p <<< 24) % 2 ^ 64 else p
      let oui_end : Nat := oui_start ||| (0xFFFFFFFFFFFF >>> mask)
      let comment : Option String :=
        if fields_cleaned.length = 4 then some (String.mk (fields_cleaned.getD 3 []))
        else none
      let name_long : Option String :=
        if 3 ≤ fields_cleaned.length then some (String.mk (fields_cleaned.getD 2 []))
        else none
      let name_short : String := String.mk (fields_cleaned.getD 1 [])
      .ok ((oui_start, oui_end),
        { name_short := name_short, name_long := name_long, comment := comment })
  else .error "unexpected number of fields extracted"

/-- Skip condition of lib.rs line 185: `entry.starts_with('#') ||
entry.is_empty()`. -/
def skipLine (entry : String) : Bool :=
  entry.data.head? = some '#' || entry.data = []

/-- Processing of one line of the manuf file: skipped lines produce no
record, data lines are parsed by `processData`. -/
def processLine (entry : String) : Except String (Option ((Nat × Nat) × OuiEntry)) :=
  if skipLine entry then .ok none
  else
    match processData entry with
    | .error e => .error e
    | .ok r => .ok (some r)

/-- The ingest fold of `create_oui_db_from_file` (lib.rs lines 176-282) over
an already-split list of lines, accumulating into the sorted map. -/
def createGo : List String → OuiMap → Except String OuiMap
  | [], acc => .ok acc
  | l :: ls, acc =>
    match processLine l with
    | .error e => .error e
    | .ok none => createGo ls acc
    | .ok (some (k, v)) => createGo ls (ouiInsert k v acc)

/-- Embedding of `create_oui_db_from_file`, with the file presented as its
list of lines (BufReader::lines strips the terminators). -/
def create_oui_db_from_lines (lines : List String) : Except String OuiMap :=
  createGo lines []

/-- Modelled from the spec: the bincode byte format used by `export` and
`new_from_export` lives in the external `bincode` crate, not in this
repository.  Following section 6.2 (a deterministic, self-delimiting,
fixed-width little-endian encoding), a u64 becomes eight little-endian
bytes. -/
def encNat64 (n : Nat) : List Nat :=
  [n % 256, n / 256 % 256, n / 65536 % 256, n / 16777216 % 256,
   n / 4294967296 % 256, n / 1099511627776 % 256,
   n / 281474976710656 % 256, n / 72057594037927936 % 256]

/-- Modelled from the spec: decoder for an eight-byte little-endian u64;
fails when fewer than eight bytes remain. -/
def decNat64 : List Nat → Option (Nat × List Nat)
  | b0 :: b1 :: b2 :: b3 :: b4 :: b5 :: b6 :: b7 :: rest =>
    some (b0 + 256 * b1 + 65536 * b2 + 16777216 * b3 + 4294967296 * b4 +
      1099511627776 * b5 + 281474976710656 * b6 + 72057594037927936 * b7, rest)
  | _ => none

/-- Modelled from the spec: a string is encoded as its length followed by one
fixed-width code unit per character. -/
def encString (s : String) : List Nat :=
  encNat64 s.data.length ++ (s.data.map (fun c => encNat64 c.toNat)).flatten

/-- Modelled from the spec: decoder for a counted run of characters. -/
def decChars : Nat → List Nat → Option (List Char × List Nat)
  | 0, bytes => some ([], bytes)
  | k + 1, bytes =>
    match decNat64 bytes with
    | none => none
    | some (n, r) =>
      match decChars k r with
      | none => none
      | some (cs, r') => some (Char.ofNat n :: cs, r')

/-- Modelled from the spec: string decoder (length, then characters). -/
def decString (bytes : List Nat) : Option (String × List Nat) :=
  match decNat64 bytes with
  | none => none
  | some (k, r) =>
    match decChars k r with
    | none => none
    | some (cs, r') => some (String.mk cs, r')

/-- Modelled from the spec: an optional string carries a one-byte tag, as the
serialization convention encodes optional fields. -/
def encOptString : Option String → List Nat
  | none => [0]
  | some s => 1 :: encString s

/-- Modelled from the spec: decoder for an optional string. -/
def decOptString (bytes : List Nat) : Option (Option String × List Nat) :=
  match bytes with
  | 0 :: rest => some (none, rest)
  | 1 :: rest =>
    match decString rest with
    | none => none
    | some (s, r) => some (some s, r)
  | _ => none

/-- Modelled from the spec: a `VendorEntry` is its three fields in order. -/
def encEntry (e : OuiEntry) : List Nat :=
  encString e.name_short ++ encOptString e.name_long ++ encOptString e.comment

/-- Modelled from the spec: decoder for a `VendorEntry`. -/
def decEntry (bytes : List Nat) : Option (OuiEntry × List Nat) :=
  match decString bytes with
  | none => none
  | some (ns, r1) =>
    match decOptString r1 with
    | none => none
    | some (nl, r2) =>
      match decOptString r2 with
      | none => none
      | some (cm, r3) =>
        some ({ name_short := ns, name_long := nl, comment := cm }, r3)

/-- Modelled from the spec: one map entry is its `(lo, hi)` key followed by
its value. -/
def encPair (x : (Nat × Nat) × OuiEntry) : List Nat :=
  encNat64 x.1.1 ++ encNat64 x.1.2 ++ encEntry x.2

/-- Modelled from the spec: decoder for one map entry. -/
def decPair (bytes : List Nat) : Option (((Nat × Nat) × OuiEntry) × List Nat) :=
  match decNat64 bytes with
  | none => none
  | some (lo, r1) =>
    match decNat64 r1 with
    | none => none
    | some (hi, r2) =>
      match decEntry r2 with
      | none => none
      | some (e, r3) => some (((lo, hi), e), r3)

/-- Modelled from the spec: decoder for a counted run of map entries. -/
def decPairs : Nat → List Nat → Option (OuiMap × List Nat)
  | 0, bytes => some ([], bytes)
  | k + 1, bytes =>
    match decPair bytes with
    | none => none
    | some (x, r) =>
      match decPairs k r with
      | none => none
      | some (xs, r') => some (x :: xs, r')

/-- Modelled from the spec: `OuiDatabase::export` (lib.rs lines 90-94)
serializes the ordered map as its entry count followed by the entries in
iteration order. -/
def export_db (db : OuiMap) : List Nat :=
  encNat64 db.length ++ (db.map encPair).flatten

/-- Modelled from the spec: `OuiDatabase::new_from_export` (lib.rs lines
81-87) deserializes a blob back into the map, failing with a decode error on
any structural mismatch. -/
def new_from_export (bytes : List Nat) : Except String OuiMap :=
  match decNat64 bytes with
  | none => .error "could not deserialize data"
  | some (n, rest) =>
    match decPairs n rest with
    | none => .error "could not deserialize data"
    | some (db, _) => .ok db

/-- Strings representable as u64-counted payloads: every string a Rust
program can hold satisfies this. -/
def wfString (s : String) : Prop := s.data.length < 2 ^ 64

/-- Entries whose string fields are representable. -/
def wfEntry (e : OuiEntry) : Prop :=
  wfString e.name_short ∧
    (∀ s, e.name_long = some s → wfString s) ∧
    (∀ s, e.comment = some s → wfString s)

/-- Maps whose keys are u64 values and whose payloads are representable:
every map the Rust program builds satisfies this. -/
def wfMap (db : OuiMap) : Prop :=
  db.length < 2 ^ 64 ∧
    ∀ x ∈ db, x.1.1 < 2 ^ 64 ∧ x.1.2 < 2 ^ 64 ∧ wfEntry x.2

instance (s : String) : Decidable (wfString s) := by
  unfold wfString; infer_instance

instance (e : OuiEntry) : Decidable (wfEntry e) := by
  unfold wfEntry wfString
  exact instDecidableAnd

instance (db : OuiMap) : Decidable (wfMap db) := by
  unfold wfMap; infer_instance

/-! Helper lemmas for the export/import round trip. -/

theorem decNat64_enc (n : Nat) (h : n < 2 ^ 64) (rest : List Nat) :
    decNat64 (encNat64 n ++ rest) = some (n, rest) := by
  simp only [encNat64, List.cons_append, List.nil_append, decNat64]
  exact congrArg (fun m => some (m, rest)) (by omega)

theorem decChars_enc (l : List Char) (rest : List Nat) :
    decChars l.length ((l.map (fun c => encNat64 c.toNat)).flatten ++ rest) =
      some (l, rest) := by
  induction l generalizing rest with
  | nil => simp [decChars]
  | cons c cs ih =>
    have hc : c.toNat < 2 ^ 64 := by
      have h := c.val.toNat_lt
      unfold Char.toNat
      omega
    simp only [List.map_cons, List.flatten_cons, List.length_cons,
      List.append_assoc, decChars, decNat64_enc c.toNat hc, ih]
    simp

theorem decString_enc (s : String) (h : wfString s) (rest : List Nat) :
    decString (encString s ++ rest) = some (s, rest) := by
  cases s with
  | mk data =>
    simp only [encString, List.append_assoc, decString,
      decNat64_enc data.length h, decChars_enc data rest]

theorem decOptString_enc (o : Option String) (h : ∀ s, o = some s → wfString s)
    (rest : List Nat) :
    decOptString (encOptString o ++ rest) = some (o, rest) := by
  cases o with
  | none => simp [encOptString, decOptString]
  | some s =>
    simp only [encOptString, List.cons_append, decOptString,
      decString_enc s (h s rfl) rest]

theorem decEntry_enc (e : OuiEntry) (h : wfEntry e) (rest : List Nat) :
    decEntry (encEntry e ++ rest) = some (e, rest) := by
  obtain ⟨h1, h2, h3⟩ := h
  simp only [encEntry, List.append_assoc, decEntry, decString_enc e.name_short h1,
    decOptString_enc e.name_long h2, decOptString_enc e.comment h3]

theorem decPair_enc (x : (Nat × Nat) × OuiEntry)
    (hlo : x.1.1 < 2 ^ 64) (hhi : x.1.2 < 2 ^ 64) (he : wfEntry x.2)
    (rest : List Nat) :
    decPair (encPair x ++ rest) = some (x, rest) := by
  simp only [encPair, List.append_assoc, decPair, decNat64_enc x.1.1 hlo,
    decNat64_enc x.1.2 hhi, decEntry_enc x.2 he]

theorem decPairs_enc (db : OuiMap)
    (h : ∀ x ∈ db, x.1.1 < 2 ^ 64 ∧ x.1.2 < 2 ^ 64 ∧ wfEntry x.2)
    (rest : List Nat) :
    decPairs db.length ((db.map encPair).flatten ++ rest) = some (db, rest) := by
  induction db generalizing rest with
  | nil => simp [decPairs]
  | cons x xs ih =>
    obtain ⟨hlo, hhi, he⟩ := h x (List.mem_cons_self x xs)
    have ih' := ih (fun y hy => h y (List.mem_cons_of_mem x hy)) rest
    simp only [List.map_cons, List.flatten_cons, List.length_cons,
      List.append_assoc, decPairs, decPair_enc x hlo hhi he, ih']

theorem new_from_export_export (db : OuiMap) (h : wfMap db) :
    new_from_export (export_db db) = .ok db := by
  obtain ⟨hlen, hx⟩ := h
  have h2 := decPairs_enc db hx []
  rw [List.append_nil] at h2
  simp only [export_db, new_from_export, decNat64_enc db.length hlen, h2]

/-! Helper lemmas about the key order and sorted scans. -/

theorem keyLt_asymm {a b : Nat × Nat} (h : keyLt a b) : ¬ keyLt b a := by
  unfold keyLt at *
  omega

/-- A pairwise-ordered list whose members are all `b` and which contains `b`
is the singleton `[b]`. -/
theorem pairwise_all_eq {α : Type} {R : α → α → Prop}
    (hasym : ∀ x y, R x y → ¬ R y x) {L : List α} (hp : L.Pairwise R)
    {b : α} (hb : b ∈ L) (hsub : ∀ x ∈ L, x = b) : L = [b] := by
  cases L with
  | nil => cases hb
  | cons x t =>
    have hx : x = b := hsub x (List.mem_cons_self x t)
    subst hx
    cases t with
    | nil => rfl
    | cons y u =>
      have hy : y = x := hsub y (List.mem_cons_of_mem x (List.mem_cons_self y u))
      have hR : R x y := (List.pairwise_cons.mp hp).1 y (List.mem_cons_self y u)
      rw [hy] at hR
      exact absurd hR (hasym x x hR)

/-- Filtering preserves the sortedness of the map scan. -/
theorem sortedMap_filter (m : OuiMap) (hs : sortedMap m)
    (p : (Nat × Nat) × OuiEntry → Bool) : sortedMap (m.filter p) :=
  List.Pairwise.sublist (List.filter_sublist m) hs

/-! Characterization of a successful data-line parse. -/

theorem parse_prefix_mask_mask_range (f0 : List Char) (p mask : Nat)
    (h : parse_prefix_mask f0 = .ok (p, mask)) : 8 ≤ mask ∧ mask ≤ 48 := by
  simp only [parse_prefix_mask] at h
  split at h
  · cases h
  · rename_i maskv heq
    split at h
    · cases h
    · rename_i pv hp
      cases h
      split at heq
      · cases heq
        omega
      · split at heq
        · cases heq
        · split at heq
          · rename_i hrange
            cases heq
            exact hrange
          · cases heq
      · cases heq

theorem processLine_ok (line : String) (k : Nat × Nat) (e : OuiEntry)
    (h : processLine line = .ok (some (k, e))) :
    skipLine line = false ∧ processData line = .ok (k, e) := by
  unfold processLine at h
  split at h
  · cases h
  · rename_i hskip
    constructor
    · simpa using hskip
    · split at h
      · cases h
      · rename_i r hr
        cases h
        exact hr

theorem processData_ok (entry : String) (k : Nat × Nat) (e : OuiEntry)
    (h : processData entry = .ok (k, e)) :
    ∃ p mask, parse_prefix_mask ((splitFields entry).headD []) = .ok (p, mask) ∧
      8 ≤ mask ∧ mask ≤ 48 ∧
      k.1 = (if mask = 24 then (p <<< 24) % 2 ^ 64 else p) ∧
      k.2 = k.1 ||| (0xFFFFFFFFFFFF >>> mask) ∧
      e.name_short = String.mk ((splitFields entry).getD 1 []) ∧
      2 ≤ (splitFields entry).length ∧ (splitFields entry).length ≤ 4 := by
  simp only [processData] at h
  split at h
  · rename_i hcount
    split at h
    · cases h
    · rename_i pv mv hpm
      cases h
      refine ⟨pv, mv, hpm, (parse_prefix_mask_mask_range _ pv mv hpm).1,
        (parse_prefix_mask_mask_range _ pv mv hpm).2, rfl, rfl, rfl,
        hcount.1, hcount.2⟩
  · cases h

/-! Bitwise facts used by the interval invariants. -/

theorem le_lor_left (a b : Nat) : a ≤ a ||| b := by
  have habs : a &&& (a ||| b) = a := by
    apply Nat.eq_of_testBit_eq
    intro i
    simp only [Nat.testBit_and, Nat.testBit_or]
    cases a.testBit i <;> simp
  calc a = a &&& (a ||| b) := habs.symm
    _ ≤ a ||| b := Nat.and_le_right

theorem mask_shift (m : Nat) (h : m ≤ 48) :
    (2 ^ 48 - 1) >>> m = 2 ^ (48 - m) - 1 := by
  rw [Nat.shiftRight_eq_div_pow]
  have e : 2 ^ 48 = 2 ^ m * 2 ^ (48 - m) := by
    rw [← pow_add]
    congr 1
    omega
  have hm : 0 < 2 ^ m := Nat.two_pow_pos m
  have hn : 0 < 2 ^ (48 - m) := Nat.two_pow_pos (48 - m)
  have e2 : 2 ^ m * 2 ^ (48 - m) - 1 = 2 ^ m * (2 ^ (48 - m) - 1) + (2 ^ m - 1) := by
    cases hk : 2 ^ (48 - m) with
    | zero => omega
    | succ t =>
      rw [Nat.mul_succ, Nat.succ_sub_one]
      have := Nat.mul_le_mul_left (2 ^ m) (Nat.zero_le t)
      omega
  rw [e, e2, Nat.mul_add_div hm, Nat.div_eq_of_lt (by omega), Nat.add_zero]

theorem lor_mask_aligned (lo k : Nat) (h : lo % 2 ^ k = 0) :
    lo ||| (2 ^ k - 1) = lo + (2 ^ k - 1) := by
  obtain ⟨t, ht⟩ := Nat.dvd_of_mod_eq_zero h
  have hb : 2 ^ k - 1 < 2 ^ k := by
    have := Nat.two_pow_pos k
    omega
  rw [ht, ← Nat.mul_add_lt_is_or hb t]

/-! Claim theorems. -/

/-- Claim C1 (code bug evidence): in the index built from a parent /24 block
and a child /36 block that share the same `lo`, the query that lies in both
intervals returns the wider (parent) entry, although the claim and the code's
own comment require the narrower (manufacturer) entry: the BTreeMap iterates
same-`lo` keys in increasing `hi` order, so `results.pop()` takes the widest
one. -/
theorem claim_C1_code_divergence :
    create_oui_db_from_lines ["AA:BB:CC\tWide", "AA:BB:CC:00:00:00/36\tNarrow"] =
      .ok [((0xAABBCC000000, 0xAABBCC000FFF), ⟨"Narrow", none, none⟩),
           ((0xAABBCC000000, 0xAABBCCFFFFFF), ⟨"Wide", none, none⟩)] ∧
    containsKey 0xAABBCC000000 (0xAABBCC000000, 0xAABBCC000FFF) = true ∧
    containsKey 0xAABBCC000000 (0xAABBCC000000, 0xAABBCCFFFFFF) = true ∧
    (0xAABBCC000FFF : Nat) < 0xAABBCCFFFFFF ∧
    query [((0xAABBCC000000, 0xAABBCC000FFF), ⟨"Narrow", none, none⟩),
           ((0xAABBCC000000, 0xAABBCCFFFFFF), ⟨"Wide", none, none⟩)]
        0xAABBCC000000 =
      .ok (some ⟨"Wide", none, none⟩) :=
  ⟨rfl, rfl, rfl, by norm_num, rfl⟩

/-- Claim C2: on a sorted index, lookup errors exactly when more than two
stored intervals contain the query, returns `none` exactly when no interval
contains it, and returns the unique matching interval's entry when exactly
one does. -/
theorem claim_C2_lookup_classification (db : OuiMap) (q : Nat) (hs : sortedMap db) :
    ((∃ msg, query db q = .error msg) ↔
      2 < (db.filter (fun x => containsKey q x.1)).length) ∧
    (query db q = .ok none ↔
      (db.filter (fun x => containsKey q x.1)).length = 0) ∧
    (∀ k v, (k, v) ∈ db → containsKey q k = true →
      (∀ x ∈ db, containsKey q x.1 = true → x = (k, v)) →
      query db q = .ok (some v)) := by
  refine ⟨?_, ?_, ?_⟩
  · unfold query
    by_cases h : 2 < (db.filter (fun x => containsKey q x.1)).length
    · simp [h]
    · simp [h]
  · unfold query
    by_cases h : 2 < (db.filter (fun x => containsKey q x.1)).length
    · simp only [gt_iff_lt, h, if_true]
      constructor
      · intro hfalse
        cases hfalse
      · intro hlen
        omega
    · simp only [gt_iff_lt, h, if_false]
      simp [Option.map_eq_none', List.length_eq_zero]
  · intro k v hmem hc honly
    have hp : (db.filter (fun x => containsKey q x.1)).Pairwise
        (fun a b => keyLt a.1 b.1) := sortedMap_filter db hs _
    have hfil : db.filter (fun x => containsKey q x.1) = [(k, v)] := by
      refine pairwise_all_eq (R := fun a b => keyLt a.1 b.1)
        (fun x y hxy hyx => keyLt_asymm hxy hyx)
        hp (List.mem_filter.mpr ⟨hmem, hc⟩) ?_
      intro x hx
      obtain ⟨hxm, hxc⟩ := List.mem_filter.mp hx
      exact honly x hxm hxc
    unfold query
    rw [hfil]
    simp

/-- Claim C2 witness: a one-interval index at a covered query. -/
theorem claim_C2_witness :
    query [((0, 5), ⟨"A", none, none⟩)] 3 = .ok (some ⟨"A", none, none⟩) :=
  (claim_C2_lookup_classification [((0, 5), ⟨"A", none, none⟩)] 3
    (by decide)).2.2 (0, 5) ⟨"A", none, none⟩ (by decide) (by decide) (by decide)

/-- Claim C3: every successfully parsed record with prefix value `p` and mask
`mask` in `[8, 48]` is stored as the interval `lo = (p <<< 24) mod 2^64` when
`mask = 24` (the u64 left shift) and `lo = p` otherwise, with
`hi = lo ||| (0xFFFFFFFFFFFF >>> mask)`. -/
theorem claim_C3_range_formula (line : String) (k : Nat × Nat) (e : OuiEntry)
    (h : processLine line = .ok (some (k, e))) :
    ∃ p mask, parse_prefix_mask ((splitFields line).headD []) = .ok (p, mask) ∧
      8 ≤ mask ∧ mask ≤ 48 ∧
      k.1 = (if mask = 24 then (p <<< 24) % 2 ^ 64 else p) ∧
      k.2 = k.1 ||| (0xFFFFFFFFFFFF >>> mask) := by
  obtain ⟨-, hd⟩ := processLine_ok line k e h
  obtain ⟨p, mask, h1, h2, h3, h4, h5, -, -, -⟩ := processData_ok line k e hd
  exact ⟨p, mask, h1, h2, h3, h4, h5⟩

/-- Claim C3 witness: the default-mask line `FF\tX` stores the shifted
interval `[0xFF000000, 0xFFFFFFFF]`. -/
theorem claim_C3_witness :
    ∃ p mask,
      parse_prefix_mask ((splitFields "FF\tX").headD []) = .ok (p, mask) ∧
      8 ≤ mask ∧ mask ≤ 48 ∧
      (0xFF000000 : Nat) = (if mask = 24 then (p <<< 24) % 2 ^ 64 else p) ∧
      (0xFFFFFFFF : Nat) = (0xFF000000 : Nat) ||| (0xFFFFFFFFFFFF >>> mask) :=
  claim_C3_range_formula "FF\tX" (0xFF000000, 0xFFFFFFFF) ⟨"X", none, none⟩ rfl

/-! Every entry of a built index originates from some line's parsed record. -/

theorem mem_ouiInsert (k : Nat × Nat) (v : OuiEntry) (m : OuiMap)
    (x : (Nat × Nat) × OuiEntry) (h : x ∈ ouiInsert k v m) :
    x = (k, v) ∨ x ∈ m := by
  induction m with
  | nil => simpa [ouiInsert] using h
  | cons y t ih =>
    obtain ⟨k', v'⟩ := y
    simp only [ouiInsert] at h
    split at h
    · rcases List.mem_cons.mp h with h1 | h1
      · exact Or.inl h1
      · exact Or.inr h1
    · split at h
      · rcases List.mem_cons.mp h with h1 | h1
        · exact Or.inl h1
        · exact Or.inr (List.mem_cons_of_mem _ h1)
      · rcases List.mem_cons.mp h with h1 | h1
        · exact Or.inr (h1 ▸ List.mem_cons_self _ _)
        · rcases ih h1 with h2 | h2
          · exact Or.inl h2
          · exact Or.inr (List.mem_cons_of_mem _ h2)

theorem createGo_mem (lines : List String) (acc db : OuiMap)
    (h : createGo lines acc = .ok db) (x : (Nat × Nat) × OuiEntry)
    (hx : x ∈ db) :
    x ∈ acc ∨ ∃ line ∈ lines, processLine line = .ok (some x) := by
  induction lines generalizing acc with
  | nil =>
    simp only [createGo] at h
    cases h
    exact Or.inl hx
  | cons l ls ih =>
    simp only [createGo] at h
    split at h
    · cases h
    · rcases ih acc h with h1 | ⟨line, hline, hpl⟩
      · exact Or.inl h1
      · exact Or.inr ⟨line, List.mem_cons_of_mem l hline, hpl⟩
    · rename_i kk vv heq
      rcases ih _ h with h1 | ⟨line, hline, hpl⟩
      · rcases mem_ouiInsert kk vv acc x h1 with h2 | h2
        · exact Or.inr ⟨l, List.mem_cons_self l ls, h2 ▸ heq⟩
        · exact Or.inl h2
      · exact Or.inr ⟨line, List.mem_cons_of_mem l hline, hpl⟩

/-- Claim C8 (amended): every key of a successfully built index satisfies
`lo ≤ hi` and has a mask in `[8, 48]` with `hi = lo ||| (2^(48-mask) - 1)`;
the interval length equals `2^(48-mask)` whenever `lo` is aligned (its low
`48 - mask` bits are zero), which covers every default-mask record, but not
the unaligned non-default records the parser also accepts. -/
theorem claim_C8_block_invariant (lines : List String) (db : OuiMap)
    (h : create_oui_db_from_lines lines = .ok db)
    (k : Nat × Nat) (e : OuiEntry) (hmem : (k, e) ∈ db) :
    k.1 ≤ k.2 ∧ ∃ mask, 8 ≤ mask ∧ mask ≤ 48 ∧
      k.2 = k.1 ||| (2 ^ (48 - mask) - 1) ∧
      (k.1 % 2 ^ (48 - mask) = 0 → k.2 - k.1 + 1 = 2 ^ (48 - mask)) := by
  rcases createGo_mem lines [] db h (k, e) hmem with hx | ⟨line, -, hpl⟩
  · cases hx
  · obtain ⟨-, hd⟩ := processLine_ok line k e hpl
    obtain ⟨p, mask, -, h8, h48, -, hhi, -, -, -⟩ := processData_ok line k e hd
    have h281 : (0xFFFFFFFFFFFF : Nat) = 2 ^ 48 - 1 := by norm_num
    rw [h281, mask_shift mask h48] at hhi
    refine ⟨?_, mask, h8, h48, hhi, ?_⟩
    · rw [hhi]
      exact le_lor_left _ _
    · intro halign
      rw [hhi, lor_mask_aligned _ _ halign]
      have := Nat.two_pow_pos (48 - mask)
      omega

/-- Claim C8 counterexample: the unaligned /47 record is accepted and stored
as a one-address interval, whose length 1 differs from `2^(48-47) = 2`. -/
theorem claim_C8_counterexample :
    create_oui_db_from_lines ["AA:BB:CC:DD:EE:01/47\tX"] =
      .ok [((0xAABBCCDDEE01, 0xAABBCCDDEE01), ⟨"X", none, none⟩)] ∧
    (0xAABBCCDDEE01 : Nat) - 0xAABBCCDDEE01 + 1 ≠ 2 ^ (48 - 47) :=
  ⟨rfl, by norm_num⟩

/-- Claim C8 witness: the invariant instantiated on a one-line build. -/
theorem claim_C8_witness :
    (0x000018000000 : Nat) ≤ (0x000018FFFFFF : Nat) ∧
    ∃ mask, 8 ≤ mask ∧ mask ≤ 48 ∧
      (0x000018FFFFFF : Nat) = (0x000018000000 : Nat) ||| (2 ^ (48 - mask) - 1) ∧
      ((0x000018000000 : Nat) % 2 ^ (48 - mask) = 0 →
        (0x000018FFFFFF : Nat) - (0x000018000000 : Nat) + 1 = 2 ^ (48 - mask)) :=
  claim_C8_block_invariant ["00:00:18\tFoo"]
    [((0x000018000000, 0x000018FFFFFF), ⟨"Foo", none, none⟩)] rfl
    (0x000018000000, 0x000018FFFFFF) ⟨"Foo", none, none⟩
    (List.mem_singleton.mpr rfl)

/-- Claim C4 (amended): the builder performs no InvalidBlock validation.  A
data line with an admissible field count whose block specifier parses always
yields a record with the computed interval, whatever the range or alignment
of `lo`. -/
theorem claim_C4_no_validation (line : String) (p mask : Nat)
    (hskip : skipLine line = false)
    (hc1 : 2 ≤ (splitFields line).length) (hc2 : (splitFields line).length ≤ 4)
    (hpm : parse_prefix_mask ((splitFields line).headD []) = .ok (p, mask)) :
    ∃ e, processLine line = .ok (some
      (((if mask = 24 then (p <<< 24) % 2 ^ 64 else p),
        (if mask = 24 then (p <<< 24) % 2 ^ 64 else p) |||
          (0xFFFFFFFFFFFF >>> mask)), e)) := by
  refine ⟨{ name_short := String.mk ((splitFields line).getD 1 []),
            name_long :=
              if 3 ≤ (splitFields line).length then
                some (String.mk ((splitFields line).getD 2 []))
              else none,
            comment :=
              if (splitFields line).length = 4 then
                some (String.mk ((splitFields line).getD 3 []))
              else none }, ?_⟩
  simp only [processLine, hskip, Bool.false_eq_true, if_false]
  simp only [processData, hpm, if_pos (And.intro hc1 hc2)]

/-- Claim C4 counterexample: neither an unaligned non-default record nor a
record whose `lo` exceeds `0xFFFFFFFFFFFF` makes construction fail; both are
inserted as-is. -/
theorem claim_C4_counterexample :
    create_oui_db_from_lines ["AA:BB:CC:DD:EE:01/47\tX"] =
      .ok [((0xAABBCCDDEE01, 0xAABBCCDDEE01), ⟨"X", none, none⟩)] ∧
    (0xAABBCCDDEE01 : Nat) % 2 ^ (48 - 47) ≠ 0 ∧
    create_oui_db_from_lines ["AABBCCDDEEFF11/48\tY"] =
      .ok [((0xAABBCCDDEEFF11, 0xAABBCCDDEEFF11), ⟨"Y", none, none⟩)] ∧
    (0xFFFFFFFFFFFF : Nat) < 0xAABBCCDDEEFF11 :=
  ⟨rfl, by norm_num, rfl, by norm_num⟩

/-- Claim C4 witness: the no-validation theorem instantiated on the unaligned
/47 line. -/
theorem claim_C4_witness :
    ∃ e, processLine "AA:BB:CC:DD:EE:01/47\tX" = .ok (some
      (((if 47 = 24 then ((0xAABBCCDDEE01 : Nat) <<< 24) % 2 ^ 64 else 0xAABBCCDDEE01),
        (if 47 = 24 then ((0xAABBCCDDEE01 : Nat) <<< 24) % 2 ^ 64 else 0xAABBCCDDEE01) |||
          (0xFFFFFFFFFFFF >>> 47)), e)) :=
  claim_C4_no_validation "AA:BB:CC:DD:EE:01/47\tX" 0xAABBCCDDEE01 47
    rfl (by decide) (by decide) rfl

/-- Claim C5 (amended): a line is skipped exactly when it is the empty string
or its very first character is `#`; whitespace-only lines and lines whose `#`
follows leading whitespace are treated as data lines. -/
theorem claim_C5_skip_iff (line : String) :
    processLine line = .ok none ↔ (line.data = [] ∨ line.data.head? = some '#') := by
  by_cases h1 : line.data.head? = some '#'
  · simp [processLine, skipLine, h1]
  · by_cases h2 : line.data = []
    · simp [processLine, skipLine, h1, h2]
    · simp only [processLine, skipLine, h1, h2]
      cases hp : processData line <;> simp [hp, h1, h2]

/-- Claim C5 counterexample: the whitespace-only line `"   "` is empty after
trimming, and the line `" #c"` has `#` as its first non-whitespace character,
yet neither is skipped: both are processed as data lines and fail with the
field-count parse error. -/
theorem claim_C5_counterexample :
    rustTrim "   ".data = [] ∧
    processLine "   " = .error "unexpected number of fields extracted" ∧
    (" #c".data.dropWhile isWsChar).head? = some '#' ∧
    processLine " #c" = .error "unexpected number of fields extracted" :=
  ⟨rfl, rfl, rfl, rfl⟩

/-- Claim C6 (amended): a produced record's short name is the cleaned second
field, which may be empty, and the admissible field count (2 to 4) counts all
fields after splitting and cleaning, empty fields included; a data line with
any other total count fails with the parse error. -/
theorem claim_C6_fields :
    (∀ line k e, processLine line = .ok (some (k, e)) →
      2 ≤ (splitFields line).length ∧ (splitFields line).length ≤ 4 ∧
      e.name_short = String.mk ((splitFields line).getD 1 [])) ∧
    (∀ line, skipLine line = false →
      ¬(2 ≤ (splitFields line).length ∧ (splitFields line).length ≤ 4) →
      processLine line = .error "unexpected number of fields extracted") := by
  constructor
  · intro line k e h
    obtain ⟨-, hd⟩ := processLine_ok line k e h
    obtain ⟨p, mask, -, -, -, -, -, hshort, hlen1, hlen2⟩ := processData_ok line k e hd
    exact ⟨hlen1, hlen2, hshort⟩
  · intro line hskip hbad
    simp only [processLine, hskip, Bool.false_eq_true, if_false]
    simp only [processData, if_neg hbad]

/-- Claim C6 counterexample: the line `AA:BB:CC\t \tLong` produces a record
whose short name is empty, and the line `A\tB\tC\tD\t` has four non-empty
fields yet fails, because the empty trailing field is counted. -/
theorem claim_C6_counterexample :
    processLine "AA:BB:CC\t \tLong" =
      .ok (some ((0xAABBCC000000, 0xAABBCCFFFFFF), ⟨"", some "Long", none⟩)) ∧
    ((splitFields "A\tB\tC\tD\t").filter (fun f => f ≠ [])).length = 4 ∧
    processLine "A\tB\tC\tD\t" = .error "unexpected number of fields extracted" :=
  ⟨rfl, rfl, rfl⟩

/-- Claim C6 witness: the field-count failure branch on a five-field line. -/
theorem claim_C6_witness :
    processLine "A\tB\tC\tD\t" = .error "unexpected number of fields extracted" :=
  claim_C6_fields.2 "A\tB\tC\tD\t" rfl (by decide)

/-- Claim C7: importing an exported index succeeds and preserves the length
and every lookup result (shown for every representable index, i.e. one whose
keys are u64 values and whose string lengths fit in a u64). -/
theorem claim_C7_roundtrip (db : OuiMap) (h : wfMap db) :
    ∃ db', new_from_export (export_db db) = .ok db' ∧
      db'.length = db.length ∧ ∀ q, query db' q = query db q :=
  ⟨db, new_from_export_export db h, rfl, fun _ => rfl⟩

/-- Claim C7 witness: round trip of a concrete two-entry index. -/
theorem claim_C7_witness :
    ∃ db', new_from_export (export_db
        [((0x0050C2000000, 0x0050C2FFFFFF), ⟨"Parent", none, none⟩),
         ((0x0050C2001000, 0x0050C2001FFF), ⟨"Child", some "Child Inc", none⟩)]) =
      .ok db' ∧
      db'.length =
        ([((0x0050C2000000, 0x0050C2FFFFFF), ⟨"Parent", none, none⟩),
          ((0x0050C2001000, 0x0050C2001FFF), ⟨"Child", some "Child Inc", none⟩)] :
          OuiMap).length ∧
      ∀ q, query db' q =
        query [((0x0050C2000000, 0x0050C2FFFFFF), ⟨"Parent", none, none⟩),
               ((0x0050C2001000, 0x0050C2001FFF), ⟨"Child", some "Child Inc", none⟩)] q :=
  claim_C7_roundtrip
    [((0x0050C2000000, 0x0050C2FFFFFF), ⟨"Parent", none, none⟩),
     ((0x0050C2001000, 0x0050C2001FFF), ⟨"Child", some "Child Inc", none⟩)]
    (by decide)

/-- Claim C9: the numeric key is the big-endian packing of the six address
bytes, and it fits in 48 bits. -/
theorem claim_C9_packing (b0 b1 b2 b3 b4 b5 : Nat)
    (h0 : b0 < 256) (h1 : b1 < 256) (h2 : b2 < 256)
    (h3 : b3 < 256) (h4 : b4 < 256) (h5 : b5 < 256) :
    mac_to_u64 b0 b1 b2 b3 b4 b5 =
      .ok (b0 * 2 ^ 40 + b1 * 2 ^ 32 + b2 * 2 ^ 24 + b3 * 2 ^ 16 + b4 * 2 ^ 8 + b5) ∧
    b0 * 2 ^ 40 + b1 * 2 ^ 32 + b2 * 2 ^ 24 + b3 * 2 ^ 16 + b4 * 2 ^ 8 + b5 < 2 ^ 48 := by
  constructor
  · have e : (((((((0 * 256 + 0) * 256 + b0) * 256 + b1) * 256 + b2) * 256 + b3)
        * 256 + b4) * 256 + b5)
        = b0 * 2 ^ 40 + b1 * 2 ^ 32 + b2 * 2 ^ 24 + b3 * 2 ^ 16 + b4 * 2 ^ 8 + b5 := by
      ring
    simp only [mac_to_u64, read_u64_be]
    rw [e]
  · have e40 : (2 : Nat) ^ 40 = 1099511627776 := by norm_num
    have e32 : (2 : Nat) ^ 32 = 4294967296 := by norm_num
    have e24 : (2 : Nat) ^ 24 = 16777216 := by norm_num
    have e16 : (2 : Nat) ^ 16 = 65536 := by norm_num
    have e8 : (2 : Nat) ^ 8 = 256 := by norm_num
    have e48 : (2 : Nat) ^ 48 = 281474976710656 := by norm_num
    rw [e40, e32, e24, e16, e8, e48]
    omega

/-- Claim C9 witness: packing of the address `01:02:03:04:05:06`. -/
theorem claim_C9_witness :
    mac_to_u64 1 2 3 4 5 6 =
      .ok (1 * 2 ^ 40 + 2 * 2 ^ 32 + 3 * 2 ^ 24 + 4 * 2 ^ 16 + 5 * 2 ^ 8 + 6) ∧
    1 * 2 ^ 40 + 2 * 2 ^ 32 + 3 * 2 ^ 24 + 4 * 2 ^ 16 + 5 * 2 ^ 8 + 6 < 2 ^ 48 :=
  claim_C9_packing 1 2 3 4 5 6 (by norm_num) (by norm_num) (by norm_num)
    (by norm_num) (by norm_num) (by norm_num)

/-- Claim C10: the byte-to-integer conversion never fails, so the only error
a six-byte query can surface is the more-than-two-matches inconsistency. -/
theorem claim_C10_conversion_total (db : OuiMap) (b0 b1 b2 b3 b4 b5 : Nat) :
    (∃ n, mac_to_u64 b0 b1 b2 b3 b4 b5 = .ok n) ∧
    (∀ msg, query_by_mac db b0 b1 b2 b3 b4 b5 = .error msg →
      2 < (db.filter (fun x => containsKey
        (b0 * 2 ^ 40 + b1 * 2 ^ 32 + b2 * 2 ^ 24 + b3 * 2 ^ 16 + b4 * 2 ^ 8 + b5)
        x.1)).length) := by
  constructor
  · exact ⟨_, rfl⟩
  · intro msg hmsg
    have e : (((((((0 * 256 + 0) * 256 + b0) * 256 + b1) * 256 + b2) * 256 + b3)
        * 256 + b4) * 256 + b5)
        = b0 * 2 ^ 40 + b1 * 2 ^ 32 + b2 * 2 ^ 24 + b3 * 2 ^ 16 + b4 * 2 ^ 8 + b5 := by
      ring
    simp only [query_by_mac, mac_to_u64, read_u64_be] at hmsg
    rw [e] at hmsg
    unfold query at hmsg
    split at hmsg
    · rename_i hgt
      exact hgt
    · cases hmsg

/-- Claim C10 witness: a three-interval index forces the inconsistency error,
and the theorem recovers the match count. -/
theorem claim_C10_witness :
    2 < (([((0, 10), ⟨"A", none, none⟩), ((0, 11), ⟨"B", none, none⟩),
          ((0, 12), ⟨"C", none, none⟩)] : OuiMap).filter
      (fun x => containsKey
        (0 * 2 ^ 40 + 0 * 2 ^ 32 + 0 * 2 ^ 24 + 0 * 2 ^ 16 + 0 * 2 ^ 8 + 0)
        x.1)).length :=
  (claim_C10_conversion_total
    [((0, 10), ⟨"A", none, none⟩), ((0, 11), ⟨"B", none, none⟩),
     ((0, 12), ⟨"C", none, none⟩)] 0 0 0 0 0 0).2
    "more than two oui matches - possible database error?" rfl

end RsOui
